import Mathlib

/-!
Verification development for the user-provisioning script `account_gen.py`.

The script is embedded shallowly: pure helpers become Lean functions on
`Nat`/`Int`/`List Char`, the HTTP environment becomes an oracle
`Call → Response`, every effect (log line, remote call, file write) becomes
an explicit `Event` in a trace, and the exception raised by
`requests.Response.raise_for_status` becomes an `Except` error value.
-/

/-! ### Python decimal rendering: `str(i)` for integers -/

/-- Fuel-driven little-endian decimal digits of a natural number.
The fuel argument makes the recursion structural, so the kernel can
evaluate it. -/
def natDigitsAux : Nat → Nat → List Nat
  | 0, _ => []
  | _, 0 => []
  | fuel + 1, n + 1 => ((n + 1) % 10) :: natDigitsAux fuel ((n + 1) / 10)

/-- Little-endian decimal digits of a natural number; `[]` for `0`. -/
def natDigits (n : Nat) : List Nat := natDigitsAux n n

theorem natDigitsAux_fuel (f1 : Nat) : ∀ f2 n, n ≤ f1 → n ≤ f2 →
    natDigitsAux f1 n = natDigitsAux f2 n := by
  induction f1 with
  | zero =>
    intro f2 n h1 _
    interval_cases n
    cases f2 <;> rfl
  | succ f ih =>
    intro f2 n h1 h2
    match n, f2 with
    | 0, f2 => cases f2 <;> rfl
    | n + 1, 0 => omega
    | n + 1, f2 + 1 =>
      show ((n + 1) % 10) :: natDigitsAux f ((n + 1) / 10)
         = ((n + 1) % 10) :: natDigitsAux f2 ((n + 1) / 10)
      have hd : (n + 1) / 10 < n + 1 := Nat.div_lt_self (Nat.succ_pos n) (by omega)
      rw [ih f2 ((n + 1) / 10) (by omega) (by omega)]

theorem natDigits_zero : natDigits 0 = [] := rfl

theorem natDigits_succ (n : Nat) (h : n ≠ 0) :
    natDigits n = (n % 10) :: natDigits (n / 10) := by
  match n, h with
  | n + 1, _ =>
    show natDigitsAux (n + 1) (n + 1) = _
    have hd : (n + 1) / 10 < n + 1 := Nat.div_lt_self (Nat.succ_pos n) (by omega)
    show ((n + 1) % 10) :: natDigitsAux n ((n + 1) / 10)
       = ((n + 1) % 10) :: natDigitsAux ((n + 1) / 10) ((n + 1) / 10)
    rw [natDigitsAux_fuel n ((n + 1) / 10) ((n + 1) / 10) (by omega) (le_refl _)]

/-- Little-endian evaluation of a digit list, inverse of `natDigits`. -/
def ofDigitsLE : List Nat → Nat
  | [] => 0
  | d :: rest => d + 10 * ofDigitsLE rest

theorem ofDigitsLE_natDigits (n : Nat) : ofDigitsLE (natDigits n) = n := by
  induction n using Nat.strong_induction_on with
  | _ n ih =>
    by_cases h : n = 0
    · subst h; rfl
    · rw [natDigits_succ n h]
      have hd : n / 10 < n := Nat.div_lt_self (Nat.pos_of_ne_zero h) (by omega)
      show n % 10 + 10 * ofDigitsLE (natDigits (n / 10)) = n
      rw [ih (n / 10) hd]
      omega

theorem natDigits_injective : Function.Injective natDigits := by
  intro m n h
  have := congrArg ofDigitsLE h
  rwa [ofDigitsLE_natDigits, ofDigitsLE_natDigits] at this

theorem natDigits_ne_nil (n : Nat) (h : n ≠ 0) : natDigits n ≠ [] := by
  rw [natDigits_succ n h]; simp

theorem natDigits_lt_ten (n : Nat) : ∀ d ∈ natDigits n, d < 10 := by
  induction n using Nat.strong_induction_on with
  | _ n ih =>
    by_cases h : n = 0
    · subst h; simp [natDigits_zero]
    · rw [natDigits_succ n h]
      intro d hd
      rcases List.mem_cons.mp hd with h1 | h1
      · omega
      · exact ih (n / 10) (Nat.div_lt_self (Nat.pos_of_ne_zero h) (by omega)) d h1

theorem natDigits_getLast_ne_zero (n : Nat) (h : n ≠ 0) :
    ∀ d, (natDigits n).getLast? = some d → d ≠ 0 := by
  induction n using Nat.strong_induction_on with
  | _ n ih =>
    intro d hd
    rw [natDigits_succ n h] at hd
    by_cases h10 : n / 10 = 0
    · have hnil : natDigits (n / 10) = [] := by rw [h10]; rfl
      rw [hnil] at hd
      simp at hd
      subst hd
      omega
    · have hne := natDigits_ne_nil (n / 10) h10
      obtain ⟨c, l, hcl⟩ := List.exists_cons_of_ne_nil hne
      rw [hcl, List.getLast?_cons_cons] at hd
      refine ih (n / 10) (Nat.div_lt_self (Nat.pos_of_ne_zero h) (by omega)) h10 d ?_
      rw [hcl]
      exact hd

/-- Inverse of `Nat.digitChar` on decimal digits. -/
def digitVal (c : Char) : Nat := c.toNat - 48

theorem digitVal_digitChar (d : Nat) (h : d < 10) :
    digitVal (Nat.digitChar d) = d := by
  interval_cases d <;> rfl

theorem digitChar_injOn (d e : Nat) (hd : d < 10) (he : e < 10)
    (h : Nat.digitChar d = Nat.digitChar e) : d = e := by
  have := congrArg digitVal h
  rwa [digitVal_digitChar d hd, digitVal_digitChar e he] at this

theorem digitChar_ne_dash (d : Nat) (h : d < 10) : Nat.digitChar d ≠ '-' := by
  interval_cases d <;> decide

theorem digitChar_ne_comma (d : Nat) (h : d < 10) : Nat.digitChar d ≠ ',' := by
  interval_cases d <;> decide

theorem digitChar_ne_newline (d : Nat) (h : d < 10) : Nat.digitChar d ≠ '\n' := by
  interval_cases d <;> decide

theorem digitChar_eq_zeroChar (d : Nat) (h : d < 10) :
    Nat.digitChar d = '0' ↔ d = 0 := by
  interval_cases d <;> simp <;> decide

/-- Characters of CPython `str(n)` for a natural number `n`: the decimal
digits, most significant first, and `['0']` for zero. -/
def pyNatData (n : Nat) : List Char :=
  if n = 0 then ['0'] else ((natDigits n).map Nat.digitChar).reverse

/-- Characters of CPython `str(i)` for an integer: a leading minus sign for
negative values, then the decimal digits of the absolute value. -/
def pyIntData (i : Int) : List Char :=
  if i < 0 then '-' :: pyNatData (-i).toNat else pyNatData i.toNat

/-- CPython `str(i)` for an integer, as a Lean string. -/
def pyStr (i : Int) : String := ⟨pyIntData i⟩

theorem pyNatData_ne_nil (n : Nat) : pyNatData n ≠ [] := by
  unfold pyNatData
  split
  · simp
  · intro hcon
    rename_i h
    have := natDigits_ne_nil n h
    simp at hcon
    exact this hcon

theorem pyNatData_head_digit (n : Nat) :
    ∀ c l, pyNatData n = c :: l → ∃ d, d < 10 ∧ c = Nat.digitChar d ∧ (n ≠ 0 → d ≠ 0) := by
  intro c l h
  unfold pyNatData at h
  split at h
  · rename_i h0
    injection h.symm with h1 h2
    exact ⟨0, by omega, by rw [h1]; rfl, by intro hc; exact absurd h0 hc⟩
  · rename_i h0
    have hhead : ((natDigits n).map Nat.digitChar).reverse.head? = some c := by
      rw [h]; rfl
    rw [List.head?_reverse] at hhead
    rw [List.getLast?_map] at hhead
    match hlast : (natDigits n).getLast? with
    | none => rw [hlast] at hhead; simp at hhead
    | some d =>
      rw [hlast] at hhead
      simp at hhead
      have hmem : d ∈ natDigits n := by
        rcases List.mem_getLast?_eq_getLast (Option.mem_def.mpr hlast) with ⟨hne, hEq⟩
        rw [hEq]
        exact List.getLast_mem hne
      refine ⟨d, natDigits_lt_ten n d hmem, hhead.symm, ?_⟩
      intro _
      exact natDigits_getLast_ne_zero n h0 d hlast

theorem pyNatData_all_digits (n : Nat) :
    ∀ c ∈ pyNatData n, ∃ d, d < 10 ∧ c = Nat.digitChar d := by
  intro c hc
  unfold pyNatData at hc
  split at hc
  · simp at hc
    exact ⟨0, by omega, by rw [hc]; rfl⟩
  · rw [List.mem_reverse] at hc
    rcases List.mem_map.mp hc with ⟨d, hd, hdc⟩
    exact ⟨d, natDigits_lt_ten n d hd, hdc.symm⟩

theorem map_digitChar_inj : ∀ l1 l2 : List Nat, (∀ d ∈ l1, d < 10) → (∀ d ∈ l2, d < 10) →
    l1.map Nat.digitChar = l2.map Nat.digitChar → l1 = l2 := by
  intro l1
  induction l1 with
  | nil =>
    intro l2 _ _ h
    cases l2 with
    | nil => rfl
    | cons b t => simp at h
  | cons a t ih =>
    intro l2 h1 h2 h
    cases l2 with
    | nil => simp at h
    | cons b t2 =>
      simp only [List.map_cons, List.cons.injEq] at h
      have hab : a = b := digitChar_injOn a b (h1 a (by simp)) (h2 b (by simp)) h.1
      have ht : t = t2 := ih t2 (fun d hd => h1 d (by simp [hd]))
        (fun d hd => h2 d (by simp [hd])) h.2
      rw [hab, ht]

theorem pyNatData_injective : Function.Injective pyNatData := by
  intro m n h
  by_cases hm : m = 0 <;> by_cases hn : n = 0
  · omega
  · exfalso
    rw [hm] at h
    have h' : pyNatData n = ['0'] := h.symm
    rcases pyNatData_head_digit n '0' [] h' with ⟨d, hd10, hd0, hdne⟩
    exact (hdne hn) (((digitChar_eq_zeroChar d hd10).mp hd0.symm))
  · exfalso
    rw [hn] at h
    rcases pyNatData_head_digit m '0' [] h with ⟨d, hd10, hd0, hdne⟩
    exact (hdne hm) (((digitChar_eq_zeroChar d hd10).mp hd0.symm))
  · unfold pyNatData at h
    rw [if_neg hm, if_neg hn] at h
    have h2 := List.reverse_injective h
    exact natDigits_injective
      (map_digitChar_inj _ _ (natDigits_lt_ten m) (natDigits_lt_ten n) h2)

theorem pyNatData_head_ne_dash (n : Nat) : ∀ c l, pyNatData n = c :: l → c ≠ '-' := by
  intro c l h
  rcases pyNatData_head_digit n c l h with ⟨d, hd10, hdc, _⟩
  rw [hdc]
  exact digitChar_ne_dash d hd10

theorem pyIntData_injective : Function.Injective pyIntData := by
  intro i j h
  unfold pyIntData at h
  split at h <;> split at h
  all_goals rename_i hi hj
  · simp only [List.cons.injEq] at h
    have := pyNatData_injective h.2
    omega
  · exfalso
    cases hn : pyNatData j.toNat with
    | nil => exact pyNatData_ne_nil j.toNat hn
    | cons c l =>
      rw [hn] at h
      injection h with h1 h2
      exact pyNatData_head_ne_dash j.toNat c l hn h1.symm
  · exfalso
    cases hn : pyNatData i.toNat with
    | nil => exact pyNatData_ne_nil i.toNat hn
    | cons c l =>
      rw [hn] at h
      injection h with h1 h2
      exact pyNatData_head_ne_dash i.toNat c l hn h1
  · have := pyNatData_injective h
    omega

/-! ### Python `str.zfill` -/

/-- Characters of CPython `s.zfill(w)`: pad with leading zeros up to width
`w`, keeping a leading sign character in front of the padding. -/
def zfillData (l : List Char) (w : Nat) : List Char :=
  if w ≤ l.length then l
  else
    match l with
    | '-' :: rest => '-' :: (List.replicate (w - l.length) '0' ++ rest)
    | '+' :: rest => '+' :: (List.replicate (w - l.length) '0' ++ rest)
    | _ => List.replicate (w - l.length) '0' ++ l

/-- CPython `s.zfill(w)` on Lean strings. -/
def zfill (s : String) (w : Nat) : String := ⟨zfillData s.data w⟩

theorem zfillData_length (l : List Char) (w : Nat) :
    (zfillData l w).length = max l.length w := by
  unfold zfillData
  split
  · omega
  · rename_i hlt
    split <;> simp <;> omega

/-- Drop leading zero characters. -/
def dropZeros : List Char → List Char
  | '0' :: rest => dropZeros rest
  | l => l

/-- Restore the canonical rendering of zero after stripping. -/
def restoreZero : List Char → List Char
  | [] => ['0']
  | l => l

/-- Inverse of zero padding on canonical decimal renderings. -/
def unpadData : List Char → List Char
  | '-' :: rest => '-' :: restoreZero (dropZeros rest)
  | l => restoreZero (dropZeros l)

theorem dropZeros_replicate_append (k : Nat) (l : List Char) :
    dropZeros (List.replicate k '0' ++ l) = dropZeros l := by
  induction k with
  | zero => rfl
  | succ m ih =>
    rw [List.replicate_succ, List.cons_append]
    show dropZeros (List.replicate m '0' ++ l) = dropZeros l
    exact ih

theorem dropZeros_cons_zero (l : List Char) : dropZeros ('0' :: l) = dropZeros l := rfl

theorem dropZeros_of_head_ne_zero : ∀ l : List Char,
    (∀ t, l = '0' :: t → False) → dropZeros l = l := by
  intro l h
  rw [dropZeros.eq_def]
  split
  · rename_i t
    exact (h t rfl).elim
  · rfl

theorem dropZeros_pyNatData (n : Nat) :
    restoreZero (dropZeros (pyNatData n)) = pyNatData n := by
  by_cases h0 : n = 0
  · subst h0
    rfl
  · rw [dropZeros_of_head_ne_zero]
    · cases hn : pyNatData n with
      | nil => exact absurd hn (pyNatData_ne_nil n)
      | cons c l => rfl
    · intro t ht
      rcases pyNatData_head_digit n '0' t ht with ⟨d, hd10, hdc, hdne⟩
      exact hdne h0 ((digitChar_eq_zeroChar d hd10).mp hdc.symm)

theorem pyNatData_head_not_sign (n : Nat) :
    ∀ c l, pyNatData n = c :: l → c ≠ '-' ∧ c ≠ '+' := by
  intro c l h
  rcases pyNatData_head_digit n c l h with ⟨d, hd10, hdc, _⟩
  subst hdc
  constructor
  · exact digitChar_ne_dash d hd10
  · interval_cases d <;> decide

theorem unpadData_replicate_pyNatData (k : Nat) (n : Nat) :
    unpadData (List.replicate k '0' ++ pyNatData n) = pyNatData n := by
  cases hn : pyNatData n with
  | nil => exact absurd hn (pyNatData_ne_nil n)
  | cons c l =>
    have hsign := pyNatData_head_not_sign n c l hn
    have hdz : restoreZero (dropZeros (List.replicate k '0' ++ (c :: l))) = c :: l := by
      rw [dropZeros_replicate_append]
      rw [← hn, dropZeros_pyNatData n, hn]
    cases k with
    | zero =>
      rw [List.replicate_zero, List.nil_append]
      rw [← hn, unpadData.eq_def]
      split
      · rename_i rest heq
        rw [hn] at heq
        injection heq with h1 _
        exact absurd h1 hsign.1
      · rw [dropZeros_pyNatData n]
    | succ m =>
      rw [List.replicate_succ, List.cons_append]
      show unpadData ('0' :: (List.replicate m '0' ++ (c :: l))) = c :: l
      rw [unpadData.eq_def]
      split
      · rename_i rest heq
        injection heq with h1 _
        exact absurd h1 (by decide)
      · show restoreZero (dropZeros ('0' :: (List.replicate m '0' ++ (c :: l)))) = c :: l
        show restoreZero (dropZeros (List.replicate m '0' ++ (c :: l))) = c :: l
        rw [dropZeros_replicate_append]
        rw [show dropZeros (c :: l) = dropZeros (pyNatData n) by rw [hn]]
        rw [show restoreZero (dropZeros (pyNatData n)) = pyNatData n from dropZeros_pyNatData n, hn]

theorem unpadData_zfillData_pyIntData (i : Int) (w : Nat) :
    unpadData (zfillData (pyIntData i) w) = pyIntData i := by
  by_cases hi : i < 0
  · have hdef : pyIntData i = '-' :: pyNatData (-i).toNat := by
      unfold pyIntData
      rw [if_pos hi]
    rw [hdef]
    unfold zfillData
    split
    · rw [unpadData]
      rw [dropZeros_pyNatData]
    · show unpadData ('-' :: (List.replicate _ '0' ++ pyNatData (-i).toNat)) = _
      rw [unpadData]
      cases hn : pyNatData (-i).toNat with
      | nil => exact absurd hn (pyNatData_ne_nil _)
      | cons c l =>
        rw [dropZeros_replicate_append]
        have h2 : restoreZero (dropZeros (c :: l)) = c :: l := by
          rw [← hn]
          exact dropZeros_pyNatData _
        rw [h2]
  · have hdef : pyIntData i = pyNatData i.toNat := by
      unfold pyIntData
      rw [if_neg hi]
    rw [hdef]
    unfold zfillData
    split
    · have := unpadData_replicate_pyNatData 0 i.toNat
      rwa [List.replicate_zero, List.nil_append] at this
    · cases hn : pyNatData i.toNat with
      | nil => exact absurd hn (pyNatData_ne_nil _)
      | cons c l =>
        have hsign := pyNatData_head_not_sign i.toNat c l hn
        have hgoal := unpadData_replicate_pyNatData (w - (pyNatData i.toNat).length) i.toNat
        rw [hn] at hgoal
        split
        · rename_i rest heq
          injection heq with h1 _
          exact absurd h1 hsign.1
        · rename_i rest heq
          injection heq with h1 _
          exact absurd h1 hsign.2
        · exact hgoal

theorem zfillData_pyIntData_injective (w : Nat) (i j : Int)
    (h : zfillData (pyIntData i) w = zfillData (pyIntData j) w) : i = j := by
  have := congrArg unpadData h
  rw [unpadData_zfillData_pyIntData, unpadData_zfillData_pyIntData] at this
  exact pyIntData_injective this

/-! ### Splitting and joining character lists -/

/-- Split a character list at every occurrence of `sep`, CPython
`s.split(sep)` for a one-character separator. -/
def splitChar (sep : Char) : List Char → List (List Char)
  | [] => [[]]
  | c :: rest =>
    if c = sep then [] :: splitChar sep rest
    else
      match splitChar sep rest with
      | [] => [[c]]
      | h :: t => (c :: h) :: t

theorem splitChar_ne_nil (sep : Char) : ∀ l, splitChar sep l ≠ [] := by
  intro l
  cases l with
  | nil => simp [splitChar]
  | cons c rest =>
    rw [splitChar]
    split
    · simp
    · split <;> simp

theorem splitChar_not_mem (sep : Char) : ∀ l, sep ∉ l → splitChar sep l = [l] := by
  intro l
  induction l with
  | nil => intro _; rfl
  | cons c rest ih =>
    intro h
    rw [splitChar]
    rw [if_neg (by intro hc; exact h (by rw [hc]; simp))]
    rw [ih (by intro hc; exact h (by simp [hc]))]

theorem splitChar_append (sep : Char) (a b : List Char) (ha : sep ∉ a) :
    splitChar sep (a ++ sep :: b) = a :: splitChar sep b := by
  induction a with
  | nil =>
    rw [List.nil_append, splitChar, if_pos rfl]
  | cons c rest ih =>
    rw [List.cons_append, splitChar]
    rw [if_neg (by intro hc; exact ha (by rw [hc]; simp))]
    rw [ih (by intro hc; exact ha (by simp [hc]))]

/-- CPython `sep.join(parts)` on character lists. -/
def pyJoin (sep : List Char) : List (List Char) → List Char
  | [] => []
  | [x] => x
  | x :: xs => x ++ sep ++ pyJoin sep xs

/-- The lines of a text file, as read back by iterating over the open file:
a final newline terminates the last line rather than opening an empty one. -/
def fileLines : List Char → List (List Char)
  | [] => []
  | c :: rest =>
    if c = '\n' then [] :: fileLines rest
    else
      match fileLines rest with
      | [] => [[c]]
      | h :: t => (c :: h) :: t

theorem fileLines_line_append (l rest : List Char) (h : '\n' ∉ l) :
    fileLines (l ++ '\n' :: rest) = l :: fileLines rest := by
  induction l with
  | nil =>
    rw [List.nil_append, fileLines, if_pos rfl]
  | cons c t ih =>
    rw [List.cons_append, fileLines]
    rw [if_neg (by intro hc; exact h (by rw [hc]; simp))]
    rw [ih (by intro hc; exact h (by simp [hc]))]

theorem fileLines_nil : fileLines [] = [] := rfl

/-! ### CPython `rsplit(sep, 1)` and the Location-header extraction -/

/-- Scan for the last occurrence of `sep`: returns `some (before, after)`
where `l = before ++ sep :: after` and `after` is `sep`-free, or `none`
when `sep` does not occur. -/
def rsplitLastAux (sep : Char) : List Char → Option (List Char × List Char)
  | [] => none
  | c :: rest =>
    match rsplitLastAux sep rest with
    | some (b, a) => some (c :: b, a)
    | none => if c = sep then some ([], rest) else none

theorem rsplitLastAux_eq_none (sep : Char) : ∀ l, rsplitLastAux sep l = none ↔ sep ∉ l := by
  intro l
  induction l with
  | nil => simp [rsplitLastAux]
  | cons c rest ih =>
    rw [rsplitLastAux]
    constructor
    · intro h
      match hr : rsplitLastAux sep rest with
      | some (b, a) => rw [hr] at h; simp at h
      | none =>
        rw [hr] at h
        simp only [List.mem_cons]
        intro hmem
        rcases hmem with h1 | h1
        · rw [if_pos h1.symm] at h
          simp at h
        · exact (ih.mp hr) h1
    · intro h
      have hc : c ≠ sep := by intro hc; exact h (by rw [hc]; simp)
      have hrest : sep ∉ rest := by intro hc; exact h (by simp [hc])
      rw [ih.mpr hrest, if_neg hc]

theorem rsplitLastAux_append (sep : Char) (a b : List Char) (hb : sep ∉ b) :
    rsplitLastAux sep (a ++ sep :: b) = some (a, b) := by
  induction a with
  | nil =>
    rw [List.nil_append, rsplitLastAux]
    rw [(rsplitLastAux_eq_none sep b).mpr hb, if_pos rfl]
  | cons c rest ih =>
    rw [List.cons_append, rsplitLastAux, ih]

/-- CPython `s.rsplit(sep, 1)` for a one-character separator: a two-element
list when `sep` occurs in `s`, else the one-element list `[s]`. -/
def pyRsplitOne (s : String) (sep : Char) : List String :=
  match rsplitLastAux sep s.data with
  | some (b, a) => [⟨b⟩, ⟨a⟩]
  | none => [s]

/-- Python unpacking failure: `_, luma_id = lst` raises `ValueError` unless
the list has exactly two elements. -/
inductive UnpackError where
  | valueError
deriving DecidableEq

/-- Embeds line 161 of `account_gen.py`:
`_, luma_id = r.headers['Location'].rsplit('/', 1)` — the two-element
unpacking of the `rsplit` result, which raises `ValueError` when the
Location header holds no slash. -/
def extractLumaId (location : String) : Except UnpackError String :=
  match pyRsplitOne location '/' with
  | [_, lumaId] => Except.ok lumaId
  | _ => Except.error UnpackError.valueError

theorem extractLumaId_no_slash (loc : String) (h : '/' ∉ loc.data) :
    extractLumaId loc = Except.error UnpackError.valueError := by
  unfold extractLumaId pyRsplitOne
  rw [(rsplitLastAux_eq_none '/' loc.data).mpr h]

theorem extractLumaId_slash (loc : String) (a b : List Char)
    (hdata : loc.data = a ++ '/' :: b) (hb : '/' ∉ b) :
    extractLumaId loc = Except.ok ⟨b⟩ := by
  unfold extractLumaId pyRsplitOne
  rw [hdata, rsplitLastAux_append '/' a b hb]

theorem exists_last_slash_split (l : List Char) (h : '/' ∈ l) :
    ∃ a b, l = a ++ '/' :: b ∧ '/' ∉ b := by
  induction l with
  | nil => simp at h
  | cons c rest ih =>
    by_cases hr : '/' ∈ rest
    · rcases ih hr with ⟨a, b, hab, hb⟩
      exact ⟨c :: a, b, by rw [hab]; rfl, hb⟩
    · have hc : c = '/' := by
        rcases List.mem_cons.mp h with h1 | h1
        · exact h1.symm
        · exact absurd h1 hr
      exact ⟨[], rest, by rw [hc]; rfl, hr⟩

/-! ### Data model of the script's environment -/

/-- The subset of a `requests` response the script consumes: the status
code, the body text (logged on mismatch), the two JSON fields read
(`userId`, `token`) and the `Location` header. -/
structure Response where
  status_code : Nat
  text : String
  json_userId : String
  json_token : String
  location : String
deriving DecidableEq

/-- One remote call, one constructor per call site of `account_gen.py`,
carrying the full request the site sends. -/
inductive Call where
  | postPanelUsers (url : String) (username userRole password : String)
      (authUser authPass : String)
  | getUser (url : String) (authUser authPass : String)
  | postClientTokens (url : String) (authUser authPass : String)
  | putSpaceUser (url : String) (authUser authPass : String)
  | putDefaultGroup (url : String) (gid : Int) (storageName : String)
  | postLumaUsers (url : String) (id : String)
  | putLumaCredentials (url : String) (storageName stype : String) (uid gid : Int)
deriving DecidableEq

deriving instance DecidableEq for Except

/-- One observable effect of the run: a log line, a remote call, or the
final file write. -/
inductive Event where
  | logInfo (msg : String)
  | logError (msg : String)
  | call (c : Call)
  | fileWrite (filename : String) (content : List Char)
deriving DecidableEq

/-- The HTTP environment: a response for every possible request. -/
def Oracle : Type := Call → Response

/-- The pipeline stage a failure or a call belongs to. -/
inductive Stage where
  | provision
  | harvest
  | enroll
  | map
  | persist
deriving DecidableEq

/-- The exceptions that can escape the script: an HTTP status error raised
by `raise_for_status`, or the `ValueError` of the Location unpacking, each
tagged with the stage whose code raised it. -/
inductive PipelineError where
  | httpStatus (stage : Stage) (status : Nat)
  | unpackValueError (stage : Stage)
deriving DecidableEq

/-- Numeric position of a stage in the forward chain. -/
def stageNat : Stage → Nat
  | Stage.provision => 1
  | Stage.harvest => 2
  | Stage.enroll => 3
  | Stage.map => 4
  | Stage.persist => 5

/-- The stage a given remote call belongs to. -/
def stageOfCall : Call → Nat
  | Call.postPanelUsers _ _ _ _ _ _ => 1
  | Call.getUser _ _ _ => 2
  | Call.postClientTokens _ _ _ => 2
  | Call.putSpaceUser _ _ _ => 3
  | Call.putDefaultGroup _ _ _ => 4
  | Call.postLumaUsers _ _ => 4
  | Call.putLumaCredentials _ _ _ _ _ => 4

/-- The stage of an event, when it has one (log lines carry none). -/
def eventStage : Event → Option Nat
  | Event.logInfo _ => none
  | Event.logError _ => none
  | Event.call c => some (stageOfCall c)
  | Event.fileWrite _ _ => some 5

/-- The stage a pipeline error was raised in. -/
def errStage : PipelineError → Stage
  | PipelineError.httpStatus st _ => st
  | PipelineError.unpackValueError st => st

/-- The configuration constants of `account_gen.py` (lines 33-64),
gathered in a record. -/
structure Config where
  onezone_ip : String
  luma_ip : String
  panel_auth_user : String
  panel_auth_pass : String
  admin_auth_user : String
  admin_auth_pass : String
  password : String
  space_id : String
  default_space_gid : Int
  storage_name : String
  storage_type : String
  low_uid_range : Int
  high_uid_range : Int
  user_login_pfx : String

/-- The concrete constants of the committed script. -/
def defaultConfig : Config :=
  ⟨ "192.168.1.99", "192.168.1.200", "admin", "password", "admin", "password",
    "RANDOM", "Beiqfxp6wquV7rpgNSb4HFNJDnlbLxdjFsfwTX6rrxc", 2000,
    "DESY", "posix", 1001, 1004, "XX" ⟩

/-- ONEZONE_PANEL base URL (line 36). -/
def onezonePanelUrl (cfg : Config) : String :=
  "https://" ++ cfg.onezone_ip ++ ":9443/api/v3/onepanel"

/-- ONEZONE base URL (line 39). -/
def onezoneUrl (cfg : Config) : String :=
  "https://" ++ cfg.onezone_ip ++ ":8443/api/v3/onezone"

/-- LUMA base URL (line 42). -/
def lumaUrl (cfg : Config) : String :=
  "http://" ++ cfg.luma_ip ++ ":8080/api/v3/luma"

/-! ### checkResponse and raise_for_status -/

/-- Embeds `requests.Response.raise_for_status`: per the requests library,
it raises `HTTPError` exactly for client-error (400-499) and server-error
(500-599) status codes, and returns normally for every other status. -/
def raiseForStatus (res : Response) : Except Nat Unit :=
  if 400 ≤ res.status_code ∧ res.status_code < 600 then
    Except.error res.status_code
  else Except.ok ()

/-- The log lines emitted by `checkResponse` (lines 67-73): the response
body is logged whenever the status is not in the accepted set. -/
def checkLog (res : Response) : List Event :=
  if res.status_code ∈ [200, 201, 202, 204] then []
  else [Event.logError res.text]

/-- The control-flow outcome of `checkResponse`: on a non-accepted status
it defers to `raise_for_status`, which raises only for 400-599. -/
def checkExc (res : Response) : Except Nat Unit :=
  if res.status_code ∈ [200, 201, 202, 204] then Except.ok ()
  else raiseForStatus res

/-- Embeds `checkResponse` (lines 67-73): the emitted log events paired
with the exception outcome. -/
def checkResponse (res : Response) : List Event × Except Nat Unit :=
  (checkLog res, checkExc res)

/-! ### generateUserLogins -/

/-- Python `range(low, high)` over integers. -/
def intRange (low high : Int) : List Int :=
  (List.range (high - low).toNat).map (fun (k : Nat) => low + (k : Int))

/-- Embeds `generateUserLogins` (lines 76-80):
`[(i, prefix+str(i).zfill(5)) for i in range(low_range, high_range)]`. -/
def generateUserLogins (low_range high_range : Int) (pfx : String) : List (Int × String) :=
  (intRange low_range high_range).map (fun i => (i, pfx ++ zfill (pyStr i) 5))

/-! ### The remote stages -/

/-- A harvested account record: `(uid, login, onedata id, access token)`. -/
abbrev PUser : Type := Int × String × String × String

/-- The request sent for one user by `addUsersToOnezone` (lines 91-95). -/
def panelUsersCall (cfg : Config) (login : String) : Call :=
  Call.postPanelUsers (onezonePanelUrl cfg ++ "/users") login "regular"
    cfg.password cfg.panel_auth_user cfg.panel_auth_pass

/-- Embeds `addUsersToOnezone` (lines 83-97): per user, log, POST the
account-creation request, and validate the response. -/
def addUsersToOnezone (cfg : Config) (o : Oracle) :
    List (Int × String) → List Event × Except PipelineError Unit
  | [] => ([], Except.ok ())
  | user :: rest =>
    let res := o (panelUsersCall cfg user.2)
    let pre := Event.logInfo ("Adding user: " ++ user.2)
      :: Event.call (panelUsersCall cfg user.2) :: checkLog res
    match checkExc res with
    | Except.error n => (pre, Except.error (PipelineError.httpStatus Stage.provision n))
    | Except.ok _ =>
      (pre ++ (addUsersToOnezone cfg o rest).1, (addUsersToOnezone cfg o rest).2)

/-- The GET /user request of `getUserIdsAndTokens` (lines 107-109). -/
def getUserCallOf (cfg : Config) (login : String) : Call :=
  Call.getUser (onezoneUrl cfg ++ "/user") login cfg.password

/-- The POST /user/client_tokens request of `getUserIdsAndTokens`
(lines 116-118). -/
def tokenCallOf (cfg : Config) (login : String) : Call :=
  Call.postClientTokens (onezoneUrl cfg ++ "/user/client_tokens") login cfg.password

/-- Embeds `getUserIdsAndTokens` (lines 100-125): per login record, fetch
the onedata user id and mint an access token as that user, accumulating
`(uid, login, userId, token)` tuples in input order. -/
def getUserIdsAndTokens (cfg : Config) (o : Oracle) :
    List (Int × String) → List Event × Except PipelineError (List PUser)
  | [] => ([], Except.ok [])
  | user :: rest =>
    let r1 := o (getUserCallOf cfg user.2)
    let pre1 := Event.call (getUserCallOf cfg user.2) :: checkLog r1
    match checkExc r1 with
    | Except.error n => (pre1, Except.error (PipelineError.httpStatus Stage.harvest n))
    | Except.ok _ =>
      let r2 := o (tokenCallOf cfg user.2)
      let pre2 := pre1 ++ Event.logInfo ("Generating user " ++ user.2 ++ " access token")
        :: Event.call (tokenCallOf cfg user.2) :: checkLog r2
      match checkExc r2 with
      | Except.error n => (pre2, Except.error (PipelineError.httpStatus Stage.harvest n))
      | Except.ok _ =>
        (pre2 ++ (getUserIdsAndTokens cfg o rest).1,
         Except.map (fun xs => (user.1, user.2, r1.json_userId, r2.json_token) :: xs)
           (getUserIdsAndTokens cfg o rest).2)

/-- The PUT space-membership request of `addUsersToSpace` (lines 136-141). -/
def spaceUserCallOf (cfg : Config) (space_id : String) (u : PUser) : Call :=
  Call.putSpaceUser (onezoneUrl cfg ++ "/spaces/" ++ space_id ++ "/users/" ++ u.2.2.1)
    cfg.admin_auth_user cfg.admin_auth_pass

/-- Embeds `addUsersToSpace` (lines 128-142): per harvested user, log and
PUT the space membership with zone-administrator credentials. -/
def addUsersToSpace (cfg : Config) (o : Oracle) (space_id : String) :
    List PUser → List Event × Except PipelineError Unit
  | [] => ([], Except.ok ())
  | user :: rest =>
    let res := o (spaceUserCallOf cfg space_id user)
    let pre := Event.logInfo ("Adding user " ++ user.2.1 ++ " to space")
      :: Event.call (spaceUserCallOf cfg space_id user) :: checkLog res
    match checkExc res with
    | Except.error n => (pre, Except.error (PipelineError.httpStatus Stage.enroll n))
    | Except.ok _ =>
      (pre ++ (addUsersToSpace cfg o space_id rest).1, (addUsersToSpace cfg o space_id rest).2)

/-- The once-per-run default-group request of `addUserMappingsToLUMA`
(lines 150-153). -/
def defaultGroupCallOf (cfg : Config) (space_id : String) (default_gid : Int)
    (storage_name : String) : Call :=
  Call.putDefaultGroup (lumaUrl cfg ++ "/admin/spaces/" ++ space_id ++ "/default_group")
    default_gid storage_name

/-- The per-user LUMA registration request (lines 158-159), body `{id}`. -/
def registerCallOf (cfg : Config) (u : PUser) : Call :=
  Call.postLumaUsers (lumaUrl cfg ++ "/admin/users") u.2.2.1

/-- The LUMA-local id extracted from the Location header of the response
to the registration request, with `""` standing for the unreached value
when extraction fails. -/
def lumaIdOf (cfg : Config) (o : Oracle) (u : PUser) : String :=
  match extractLumaId (o (registerCallOf cfg u)).location with
  | Except.ok s => s
  | Except.error _ => ""

/-- The per-user LUMA credentials request (lines 163-167): uid and gid are
both the user tuple's numeric id. -/
def credsCallOf (cfg : Config) (o : Oracle) (storage_name : String) (u : PUser) : Call :=
  Call.putLumaCredentials (lumaUrl cfg ++ "/admin/users/" ++ lumaIdOf cfg o u ++ "/credentials")
    storage_name cfg.storage_type u.1 u.1

/-- The per-user loop of `addUserMappingsToLUMA` (lines 156-168): register
the user with LUMA, unpack the Location header, then PUT the UID/GID
credentials. -/
def lumaUsersLoop (cfg : Config) (o : Oracle) (storage_name : String) :
    List PUser → List Event × Except PipelineError Unit
  | [] => ([], Except.ok ())
  | user :: rest =>
    let r1 := o (registerCallOf cfg user)
    let pre1 := Event.logInfo ("Adding user " ++ user.2.1 ++ " credentials to LUMA")
      :: Event.call (registerCallOf cfg user) :: checkLog r1
    match checkExc r1 with
    | Except.error n => (pre1, Except.error (PipelineError.httpStatus Stage.map n))
    | Except.ok _ =>
      match extractLumaId r1.location with
      | Except.error _ => (pre1, Except.error (PipelineError.unpackValueError Stage.map))
      | Except.ok _ =>
        let r2 := o (credsCallOf cfg o storage_name user)
        let pre2 := pre1 ++ Event.call (credsCallOf cfg o storage_name user) :: checkLog r2
        match checkExc r2 with
        | Except.error n => (pre2, Except.error (PipelineError.httpStatus Stage.map n))
        | Except.ok _ =>
          (pre2 ++ (lumaUsersLoop cfg o storage_name rest).1,
           (lumaUsersLoop cfg o storage_name rest).2)

/-- Embeds `addUserMappingsToLUMA` (lines 145-168): one default-group PUT
for the space on the storage, then the per-user loop. -/
def addUserMappingsToLUMA (cfg : Config) (o : Oracle) (storage_name : String)
    (users : List PUser) (space_id : String) (default_gid : Int) :
    List Event × Except PipelineError Unit :=
  let res := o (defaultGroupCallOf cfg space_id default_gid storage_name)
  let pre := Event.call (defaultGroupCallOf cfg space_id default_gid storage_name)
    :: checkLog res
  match checkExc res with
  | Except.error n => (pre, Except.error (PipelineError.httpStatus Stage.map n))
  | Except.ok _ =>
    (pre ++ (lumaUsersLoop cfg o storage_name users).1,
     (lumaUsersLoop cfg o storage_name users).2)

/-! ### writeUserAccounts -/

/-- The characters of one output line: `','.join(map(str, user))` for a
`(uid, login, userId, token)` tuple. -/
def userLineData (u : PUser) : List Char :=
  pyJoin [','] [pyIntData u.1, u.2.1.data, u.2.2.1.data, u.2.2.2.data]

/-- CPython `open(filename, "w+")` truncates: whatever the previous file
content was, writing starts from the empty file. -/
def pyOpenWPlus (_prev : List Char) : List Char := []

/-- The file content accumulated by the write loop (lines 183-184),
starting from the truncated file. -/
def writeLoop (users : List PUser) (f0 : List Char) : List Char :=
  users.foldl (fun acc u => acc ++ userLineData u ++ ['\n']) f0

/-- Embeds `writeUserAccounts` (lines 171-184): open `prefix_accounts.csv`
with mode `"w+"` and write one comma-joined, newline-terminated line per
user. `prev` is the pre-existing content of that file. -/
def writeUserAccounts (pfx : String) (users : List PUser) (prev : List Char) :
    List Event × Except PipelineError Unit :=
  ([Event.fileWrite (pfx ++ "_accounts.csv") (writeLoop users (pyOpenWPlus prev))],
   Except.ok ())

/-! ### The pipeline -/

/-- Embeds `main` (lines 187-197): the strict forward chain of the five
effectful stages over the generated login records, stopping at the first
raised exception. `prev` is the pre-existing content of the output file. -/
def runPipeline (cfg : Config) (o : Oracle) (prev : List Char) :
    List Event × Except PipelineError Unit :=
  let user_logins := generateUserLogins cfg.low_uid_range cfg.high_uid_range cfg.user_login_pfx
  let s1 := addUsersToOnezone cfg o user_logins
  match s1.2 with
  | Except.error e => (s1.1, Except.error e)
  | Except.ok _ =>
    let s2 := getUserIdsAndTokens cfg o user_logins
    match s2.2 with
    | Except.error e => (s1.1 ++ s2.1, Except.error e)
    | Except.ok users =>
      let s3 := addUsersToSpace cfg o cfg.space_id users
      match s3.2 with
      | Except.error e => (s1.1 ++ s2.1 ++ s3.1, Except.error e)
      | Except.ok _ =>
        let s4 := addUserMappingsToLUMA cfg o cfg.storage_name users cfg.space_id
          cfg.default_space_gid
        match s4.2 with
        | Except.error e => (s1.1 ++ s2.1 ++ s3.1 ++ s4.1, Except.error e)
        | Except.ok _ =>
          let s5 := writeUserAccounts cfg.user_login_pfx users prev
          (s1.1 ++ s2.1 ++ s3.1 ++ s4.1 ++ s5.1, s5.2)

/-! ### Helper lemmas about the login generator -/

theorem generateUserLogins_closed_form (low high : Int) (pfx : String) :
    generateUserLogins low high pfx
      = (List.range (high - low).toNat).map
          (fun (k : Nat) => (low + (k : Int), pfx ++ zfill (pyStr (low + (k : Int))) 5)) := by
  unfold generateUserLogins intRange
  rw [List.map_map]
  rfl

theorem generateUserLogins_length (low high : Int) (pfx : String) :
    (generateUserLogins low high pfx).length = (high - low).toNat := by
  rw [generateUserLogins_closed_form]
  rw [List.length_map, List.length_range]

theorem string_append_left_cancel (p a b : String) (h : p ++ a = p ++ b) : a = b := by
  have hd : p.data ++ a.data = p.data ++ b.data := congrArg String.data h
  have hc := List.append_cancel_left hd
  cases a
  cases b
  exact congrArg String.mk hc

theorem zfill_pyStr_inj (i j : Int) (h : zfill (pyStr i) 5 = zfill (pyStr j) 5) : i = j := by
  have hd : zfillData (pyIntData i) 5 = zfillData (pyIntData j) 5 := congrArg String.data h
  exact zfillData_pyIntData_injective 5 i j hd

/-- Claim C1: for all integers `L < H` and every prefix `P`,
`generateUserLogins` returns exactly `H - L` pairs, the `k`-th pair being
`(L + k, P ++ zfill(str(L + k), 5))`, with the numeric ids strictly
increasing and no duplicate pairs. -/
theorem generateUserLogins_spec (low high : Int) (pfx : String) (hlt : low < high) :
    (generateUserLogins low high pfx).length = (high - low).toNat ∧
    (∀ k (hk : k < (generateUserLogins low high pfx).length),
      (generateUserLogins low high pfx).get ⟨k, hk⟩
        = (low + (k : Int), pfx ++ zfill (pyStr (low + (k : Int))) 5)) ∧
    (∀ k l (hk : k < (generateUserLogins low high pfx).length)
        (hl : l < (generateUserLogins low high pfx).length), k < l →
      ((generateUserLogins low high pfx).get ⟨k, hk⟩).1
        < ((generateUserLogins low high pfx).get ⟨l, hl⟩).1) ∧
    (generateUserLogins low high pfx).Nodup := by
  have hget : ∀ k (hk : k < (generateUserLogins low high pfx).length),
      (generateUserLogins low high pfx).get ⟨k, hk⟩
        = (low + (k : Int), pfx ++ zfill (pyStr (low + (k : Int))) 5) := by
    intro k hk
    have hk2 : k < (high - low).toNat := by
      rw [← generateUserLogins_length low high pfx]
      exact hk
    rw [List.get_eq_getElem, List.getElem_eq_iff]
    show (generateUserLogins low high pfx)[k]?
        = some (low + (k : Int), pfx ++ zfill (pyStr (low + (k : Int))) 5)
    rw [generateUserLogins_closed_form]
    rw [List.getElem?_map]
    rw [List.getElem?_range hk2]
    rfl
  refine ⟨generateUserLogins_length low high pfx, hget, ?_, ?_⟩
  · intro k l hk hl hkl
    rw [hget k hk, hget l hl]
    simp only
    omega
  · rw [generateUserLogins_closed_form]
    have hinj : Function.Injective
        (fun k : Nat => ((low + (k : Int), pfx ++ zfill (pyStr (low + (k : Int))) 5)
          : Int × String)) := by
      intro a b hab
      have := congrArg Prod.fst hab
      simp only at this
      omega
    exact List.Nodup.map hinj (List.nodup_range _)

/-- Witness for C1 at the committed configuration range. -/
theorem generateUserLogins_spec_witness :
    (generateUserLogins 1001 1004 "XX").length = ((1004 : Int) - 1001).toNat :=
  (generateUserLogins_spec 1001 1004 "XX" (by decide)).1

/-- Claim C9: over any range and prefix, the uid-to-login mapping realised
by `generateUserLogins` is injective — two generated records with the same
login are the same record — and zero-padding to width 5 never truncates
the decimal rendering. -/
theorem generateUserLogins_login_inj (low high : Int) (pfx : String) :
    (∀ p ∈ generateUserLogins low high pfx, ∀ q ∈ generateUserLogins low high pfx,
        p.2 = q.2 → p = q) ∧
    (∀ i : Int, (pyStr i).length ≤ (zfill (pyStr i) 5).length) := by
  constructor
  · intro p hp q hq hlogin
    rw [generateUserLogins_closed_form] at hp hq
    rcases List.mem_map.mp hp with ⟨kp, _, hkp⟩
    rcases List.mem_map.mp hq with ⟨kq, _, hkq⟩
    rw [← hkp, ← hkq] at hlogin ⊢
    simp only at hlogin ⊢
    have hz : zfill (pyStr (low + (kp : Int))) 5 = zfill (pyStr (low + (kq : Int))) 5 :=
      string_append_left_cancel pfx _ _ hlogin
    have := zfill_pyStr_inj _ _ hz
    rw [this]
  · intro i
    show (pyStr i).data.length ≤ (zfillData (pyStr i).data 5).length
    rw [zfillData_length]
    omega

/-- Witness for C9 on the committed configuration range. -/
theorem generateUserLogins_login_inj_witness :
    ((1001 : Int), "XX01001") ∈ generateUserLogins 1001 1004 "XX" ∧
    (((1001 : Int), "XX01001") : Int × String) = ((1001 : Int), "XX01001") :=
  ⟨by decide,
   (generateUserLogins_login_inj 1001 1004 "XX").1 (1001, "XX01001") (by decide)
     (1001, "XX01001") (by decide) rfl⟩

/-- Claim C10: the Location-header extraction succeeds and yields the
substring after the last slash exactly when the header holds a slash;
a slash-free header makes the two-element unpacking fail with the
`ValueError` of unpacking, not a status-validation error. -/
theorem extractLumaId_spec (loc : String) :
    ('/' ∈ loc.data → ∃ a b, loc.data = a ++ '/' :: b ∧ '/' ∉ b
        ∧ extractLumaId loc = Except.ok ⟨b⟩) ∧
    ('/' ∉ loc.data → extractLumaId loc = Except.error UnpackError.valueError) := by
  constructor
  · intro h
    rcases exists_last_slash_split loc.data h with ⟨a, b, hab, hb⟩
    exact ⟨a, b, hab, hb, extractLumaId_slash loc a b hab hb⟩
  · intro h
    exact extractLumaId_no_slash loc h

/-- Witness for C10 at a two-segment Location value. -/
theorem extractLumaId_spec_witness :
    '/' ∈ ("users/77" : String).data ∧
    (∃ a b, ("users/77" : String).data = a ++ '/' :: b ∧ '/' ∉ b
        ∧ extractLumaId "users/77" = Except.ok ⟨b⟩) :=
  ⟨by decide, (extractLumaId_spec "users/77").1 (by decide)⟩

/-- Counterexample to claim C2 as stated: status 205 is outside the
accepted set, yet `checkResponse` logs the body and returns normally —
`raise_for_status` does not raise outside 400-599. -/
theorem checkResponse_205_counterexample :
    (205 : Nat) ∉ [200, 201, 202, 204] ∧
    checkResponse ⟨205, "body", "", "", ""⟩ = ([Event.logError "body"], Except.ok ()) := by
  constructor
  · decide
  · decide

/-- Claim C2 (amended): `checkResponse` accepts exactly the statuses
{200, 201, 202, 204} silently; on any other status it logs the response
body, and it raises if and only if the status lies in the 400-599 range
that `raise_for_status` treats as an error. -/
theorem checkResponse_spec (res : Response) :
    (res.status_code ∈ [200, 201, 202, 204] →
        checkResponse res = ([], Except.ok ())) ∧
    (res.status_code ∉ [200, 201, 202, 204] →
        (checkResponse res).1 = [Event.logError res.text]) ∧
    ((checkResponse res).2 = Except.error res.status_code
        ↔ 400 ≤ res.status_code ∧ res.status_code < 600) := by
  refine ⟨?_, ?_, ?_⟩
  · intro h
    unfold checkResponse checkLog checkExc
    rw [if_pos h, if_pos h]
  · intro h
    show checkLog res = _
    unfold checkLog
    rw [if_neg h]
  · show checkExc res = _ ↔ _
    unfold checkExc raiseForStatus
    split
    · rename_i h1
      simp only [List.mem_cons, List.not_mem_nil, or_false] at h1
      constructor
      · intro hc
        exact absurd hc (by simp)
      · intro hr
        omega
    · split
      · rename_i h2
        simp [h2]
      · rename_i h1 h2
        constructor
        · intro hc
          exact absurd hc (by simp)
        · intro hr
          exact absurd hr h2

/-- Witness for the amended C2 on an accepted status. -/
theorem checkResponse_spec_witness :
    checkResponse ⟨200, "", "", "", ""⟩ = ([], Except.ok ()) :=
  (checkResponse_spec ⟨200, "", "", "", ""⟩).1 (by decide)

/-! ### Stage-level lemmas for the failure-propagation claim -/

theorem checkExc_error_status (res : Response) (n : Nat)
    (h : checkExc res = Except.error n) : 400 ≤ n ∧ n < 600 := by
  unfold checkExc raiseForStatus at h
  split at h
  · simp at h
  · split at h
    · rename_i hr
      injection h with h1
      omega
    · simp at h

theorem mem_checkLog_eventStage (res : Response) (ev : Event) (h : ev ∈ checkLog res) :
    eventStage ev = none := by
  unfold checkLog at h
  split at h
  · simp at h
  · simp at h
    rw [h]
    rfl

/-- An error produced with the tag of stage `x`, carrying a genuine
`raise_for_status` status when it is an HTTP error. -/
def errFrom (x : Stage) (e : PipelineError) : Prop :=
  errStage e = x ∧ ∀ st n, e = PipelineError.httpStatus st n → 400 ≤ n ∧ n < 600

theorem addUsersToOnezone_events (cfg : Config) (o : Oracle) :
    ∀ us, ∀ ev ∈ (addUsersToOnezone cfg o us).1, ∀ s, eventStage ev = some s → s = 1 := by
  intro us
  induction us with
  | nil =>
    intro ev hv
    simp [addUsersToOnezone] at hv
  | cons user rest ih =>
    intro ev hv s hs
    rw [addUsersToOnezone] at hv
    cases hc : checkExc (o (panelUsersCall cfg user.2)) with
    | error n =>
      rw [hc] at hv
      simp only [List.mem_cons] at hv
      rcases hv with hv | hv | hv
      · rw [hv] at hs; simp [eventStage] at hs
      · rw [hv] at hs
        simp [eventStage, stageOfCall, panelUsersCall] at hs
        omega
      · rw [mem_checkLog_eventStage _ _ hv] at hs; simp at hs
    | ok u =>
      rw [hc] at hv
      simp only [List.cons_append, List.mem_cons, List.mem_append] at hv
      rcases hv with hv | hv | hv
      · rw [hv] at hs; simp [eventStage] at hs
      · rw [hv] at hs
        simp [eventStage, stageOfCall, panelUsersCall] at hs
        omega
      · rcases hv with hv | hv
        · rw [mem_checkLog_eventStage _ _ hv] at hs; simp at hs
        · exact ih ev hv s hs

theorem addUsersToOnezone_error (cfg : Config) (o : Oracle) :
    ∀ us e, (addUsersToOnezone cfg o us).2 = Except.error e → errFrom Stage.provision e := by
  intro us
  induction us with
  | nil =>
    intro e h
    simp [addUsersToOnezone] at h
  | cons user rest ih =>
    intro e h
    rw [addUsersToOnezone] at h
    cases hc : checkExc (o (panelUsersCall cfg user.2)) with
    | error n =>
      rw [hc] at h
      simp only at h
      injection h with h1
      constructor
      · rw [← h1]; rfl
      · intro st m hm
        rw [← h1] at hm
        injection hm with hst hm2
        have := checkExc_error_status _ _ hc
        omega
    | ok u =>
      rw [hc] at h
      simp only at h
      exact ih e h

theorem getUserIdsAndTokens_events (cfg : Config) (o : Oracle) :
    ∀ us, ∀ ev ∈ (getUserIdsAndTokens cfg o us).1, ∀ s, eventStage ev = some s → s = 2 := by
  intro us
  induction us with
  | nil =>
    intro ev hv
    simp [getUserIdsAndTokens] at hv
  | cons user rest ih =>
    intro ev hv s hs
    rw [getUserIdsAndTokens] at hv
    cases hc : checkExc (o (getUserCallOf cfg user.2)) with
    | error n =>
      rw [hc] at hv
      simp only [List.mem_cons] at hv
      rcases hv with hv | hv
      · rw [hv] at hs
        simp [eventStage, stageOfCall, getUserCallOf] at hs
        omega
      · rw [mem_checkLog_eventStage _ _ hv] at hs; simp at hs
    | ok u =>
      simp only [hc] at hv
      cases hc2 : checkExc (o (tokenCallOf cfg user.2)) with
      | error n =>
        simp only [hc2] at hv
        simp only [List.cons_append, List.mem_cons, List.mem_append, or_assoc] at hv
        rcases hv with hv | hv | hv | hv | hv
        · rw [hv] at hs
          simp [eventStage, stageOfCall, getUserCallOf] at hs
          omega
        · rw [mem_checkLog_eventStage _ _ hv] at hs; simp at hs
        · rw [hv] at hs; simp [eventStage] at hs
        · rw [hv] at hs
          simp [eventStage, stageOfCall, tokenCallOf] at hs
          omega
        · rw [mem_checkLog_eventStage _ _ hv] at hs; simp at hs
      | ok u2 =>
        simp only [hc2] at hv
        simp only [List.cons_append, List.mem_cons, List.mem_append, or_assoc] at hv
        rcases hv with hv | hv | hv | hv | hv | hv
        · rw [hv] at hs
          simp [eventStage, stageOfCall, getUserCallOf] at hs
          omega
        · rw [mem_checkLog_eventStage _ _ hv] at hs; simp at hs
        · rw [hv] at hs; simp [eventStage] at hs
        · rw [hv] at hs
          simp [eventStage, stageOfCall, tokenCallOf] at hs
          omega
        · rw [mem_checkLog_eventStage _ _ hv] at hs; simp at hs
        · exact ih ev hv s hs

theorem getUserIdsAndTokens_error (cfg : Config) (o : Oracle) :
    ∀ us e, (getUserIdsAndTokens cfg o us).2 = Except.error e → errFrom Stage.harvest e := by
  intro us
  induction us with
  | nil =>
    intro e h
    simp [getUserIdsAndTokens] at h
  | cons user rest ih =>
    intro e h
    rw [getUserIdsAndTokens] at h
    cases hc : checkExc (o (getUserCallOf cfg user.2)) with
    | error n =>
      rw [hc] at h
      simp only at h
      injection h with h1
      refine ⟨by rw [← h1]; rfl, ?_⟩
      intro st m hm
      rw [← h1] at hm
      injection hm with hst hm2
      have := checkExc_error_status _ _ hc
      omega
    | ok u =>
      simp only [hc] at h
      cases hc2 : checkExc (o (tokenCallOf cfg user.2)) with
      | error n =>
        simp only [hc2] at h
        injection h with h1
        refine ⟨by rw [← h1]; rfl, ?_⟩
        intro st m hm
        rw [← h1] at hm
        injection hm with hst hm2
        have := checkExc_error_status _ _ hc2
        omega
      | ok u2 =>
        simp only [hc2] at h
        cases hr : (getUserIdsAndTokens cfg o rest).2 with
        | error e2 =>
          simp only [hr, Except.map] at h
          injection h with h1
          rw [← h1]
          exact ih e2 hr
        | ok xs =>
          simp only [hr, Except.map] at h
          simp at h

theorem addUsersToSpace_events (cfg : Config) (o : Oracle) (space_id : String) :
    ∀ us, ∀ ev ∈ (addUsersToSpace cfg o space_id us).1, ∀ s, eventStage ev = some s → s = 3 := by
  intro us
  induction us with
  | nil =>
    intro ev hv
    simp [addUsersToSpace] at hv
  | cons user rest ih =>
    intro ev hv s hs
    rw [addUsersToSpace] at hv
    cases hc : checkExc (o (spaceUserCallOf cfg space_id user)) with
    | error n =>
      rw [hc] at hv
      simp only [List.mem_cons] at hv
      rcases hv with hv | hv | hv
      · rw [hv] at hs; simp [eventStage] at hs
      · rw [hv] at hs
        simp [eventStage, stageOfCall, spaceUserCallOf] at hs
        omega
      · rw [mem_checkLog_eventStage _ _ hv] at hs; simp at hs
    | ok u =>
      rw [hc] at hv
      simp only [List.cons_append, List.mem_cons, List.mem_append] at hv
      rcases hv with hv | hv | hv
      · rw [hv] at hs; simp [eventStage] at hs
      · rw [hv] at hs
        simp [eventStage, stageOfCall, spaceUserCallOf] at hs
        omega
      · rcases hv with hv | hv
        · rw [mem_checkLog_eventStage _ _ hv] at hs; simp at hs
        · exact ih ev hv s hs

theorem addUsersToSpace_error (cfg : Config) (o : Oracle) (space_id : String) :
    ∀ us e, (addUsersToSpace cfg o space_id us).2 = Except.error e → errFrom Stage.enroll e := by
  intro us
  induction us with
  | nil =>
    intro e h
    simp [addUsersToSpace] at h
  | cons user rest ih =>
    intro e h
    rw [addUsersToSpace] at h
    cases hc : checkExc (o (spaceUserCallOf cfg space_id user)) with
    | error n =>
      rw [hc] at h
      simp only at h
      injection h with h1
      refine ⟨by rw [← h1]; rfl, ?_⟩
      intro st m hm
      rw [← h1] at hm
      injection hm with hst hm2
      have := checkExc_error_status _ _ hc
      omega
    | ok u =>
      rw [hc] at h
      simp only at h
      exact ih e h

theorem lumaUsersLoop_events (cfg : Config) (o : Oracle) (storage_name : String) :
    ∀ us, ∀ ev ∈ (lumaUsersLoop cfg o storage_name us).1, ∀ s, eventStage ev = some s → s = 4 := by
  intro us
  induction us with
  | nil =>
    intro ev hv
    simp [lumaUsersLoop] at hv
  | cons user rest ih =>
    intro ev hv s hs
    rw [lumaUsersLoop] at hv
    cases hc : checkExc (o (registerCallOf cfg user)) with
    | error n =>
      simp only [hc] at hv
      simp only [List.mem_cons, or_assoc] at hv
      rcases hv with hv | hv | hv
      · rw [hv] at hs; simp [eventStage] at hs
      · rw [hv] at hs
        simp [eventStage, stageOfCall, registerCallOf] at hs
        omega
      · rw [mem_checkLog_eventStage _ _ hv] at hs; simp at hs
    | ok u =>
      simp only [hc] at hv
      cases hx : extractLumaId (o (registerCallOf cfg user)).location with
      | error uerr =>
        simp only [hx] at hv
        simp only [List.mem_cons, or_assoc] at hv
        rcases hv with hv | hv | hv
        · rw [hv] at hs; simp [eventStage] at hs
        · rw [hv] at hs
          simp [eventStage, stageOfCall, registerCallOf] at hs
          omega
        · rw [mem_checkLog_eventStage _ _ hv] at hs; simp at hs
      | ok lid =>
        simp only [hx] at hv
        cases hc2 : checkExc (o (credsCallOf cfg o storage_name user)) with
        | error n =>
          simp only [hc2] at hv
          simp only [List.cons_append, List.mem_cons, List.mem_append, or_assoc] at hv
          rcases hv with hv | hv | hv | hv | hv
          · rw [hv] at hs; simp [eventStage] at hs
          · rw [hv] at hs
            simp [eventStage, stageOfCall, registerCallOf] at hs
            omega
          · rw [mem_checkLog_eventStage _ _ hv] at hs; simp at hs
          · rw [hv] at hs
            simp [eventStage, stageOfCall, credsCallOf] at hs
            omega
          · rw [mem_checkLog_eventStage _ _ hv] at hs; simp at hs
        | ok u2 =>
          simp only [hc2] at hv
          simp only [List.cons_append, List.mem_cons, List.mem_append, or_assoc] at hv
          rcases hv with hv | hv | hv | hv | hv | hv
          · rw [hv] at hs; simp [eventStage] at hs
          · rw [hv] at hs
            simp [eventStage, stageOfCall, registerCallOf] at hs
            omega
          · rw [mem_checkLog_eventStage _ _ hv] at hs; simp at hs
          · rw [hv] at hs
            simp [eventStage, stageOfCall, credsCallOf] at hs
            omega
          · rw [mem_checkLog_eventStage _ _ hv] at hs; simp at hs
          · exact ih ev hv s hs

theorem lumaUsersLoop_error (cfg : Config) (o : Oracle) (storage_name : String) :
    ∀ us e, (lumaUsersLoop cfg o storage_name us).2 = Except.error e → errFrom Stage.map e := by
  intro us
  induction us with
  | nil =>
    intro e h
    simp [lumaUsersLoop] at h
  | cons user rest ih =>
    intro e h
    rw [lumaUsersLoop] at h
    cases hc : checkExc (o (registerCallOf cfg user)) with
    | error n =>
      simp only [hc] at h
      injection h with h1
      refine ⟨by rw [← h1]; rfl, ?_⟩
      intro st m hm
      rw [← h1] at hm
      injection hm with hst hm2
      have := checkExc_error_status _ _ hc
      omega
    | ok u =>
      simp only [hc] at h
      cases hx : extractLumaId (o (registerCallOf cfg user)).location with
      | error uerr =>
        simp only [hx] at h
        injection h with h1
        refine ⟨by rw [← h1]; rfl, ?_⟩
        intro st m hm
        rw [← h1] at hm
        exact absurd hm (by simp)
      | ok lid =>
        simp only [hx] at h
        cases hc2 : checkExc (o (credsCallOf cfg o storage_name user)) with
        | error n =>
          simp only [hc2] at h
          injection h with h1
          refine ⟨by rw [← h1]; rfl, ?_⟩
          intro st m hm
          rw [← h1] at hm
          injection hm with hst hm2
          have := checkExc_error_status _ _ hc2
          omega
        | ok u2 =>
          simp only [hc2] at h
          exact ih e h

theorem addUserMappingsToLUMA_events (cfg : Config) (o : Oracle) (storage_name : String)
    (users : List PUser) (space_id : String) (default_gid : Int) :
    ∀ ev ∈ (addUserMappingsToLUMA cfg o storage_name users space_id default_gid).1,
      ∀ s, eventStage ev = some s → s = 4 := by
  intro ev hv s hs
  rw [addUserMappingsToLUMA] at hv
  cases hc : checkExc (o (defaultGroupCallOf cfg space_id default_gid storage_name)) with
  | error n =>
    simp only [hc] at hv
    simp only [List.mem_cons, or_assoc] at hv
    rcases hv with hv | hv
    · rw [hv] at hs
      simp [eventStage, stageOfCall, defaultGroupCallOf] at hs
      omega
    · rw [mem_checkLog_eventStage _ _ hv] at hs; simp at hs
  | ok u =>
    simp only [hc] at hv
    simp only [List.cons_append, List.mem_cons, List.mem_append, or_assoc] at hv
    rcases hv with hv | hv | hv
    · rw [hv] at hs
      simp [eventStage, stageOfCall, defaultGroupCallOf] at hs
      omega
    · rw [mem_checkLog_eventStage _ _ hv] at hs; simp at hs
    · exact lumaUsersLoop_events cfg o storage_name users ev hv s hs

theorem addUserMappingsToLUMA_error (cfg : Config) (o : Oracle) (storage_name : String)
    (users : List PUser) (space_id : String) (default_gid : Int) :
    ∀ e, (addUserMappingsToLUMA cfg o storage_name users space_id default_gid).2
        = Except.error e → errFrom Stage.map e := by
  intro e h
  rw [addUserMappingsToLUMA] at h
  cases hc : checkExc (o (defaultGroupCallOf cfg space_id default_gid storage_name)) with
  | error n =>
    simp only [hc] at h
    injection h with h1
    refine ⟨by rw [← h1]; rfl, ?_⟩
    intro st m hm
    rw [← h1] at hm
    injection hm with hst hm2
    have := checkExc_error_status _ _ hc
    omega
  | ok u =>
    simp only [hc] at h
    exact lumaUsersLoop_error cfg o storage_name users e h

theorem writeUserAccounts_never_errors (pfx : String) (users : List PUser) (prev : List Char) :
    (writeUserAccounts pfx users prev).2 = Except.ok () := rfl

/-- A one-user configuration for concrete runs. -/
def smallCfg : Config :=
  ⟨ "z", "l", "a", "p", "a", "p", "pw", "S", 7, "st", "posix", 0, 1, "u" ⟩

/-- An environment answering 205 (non-accepted, non-error) to the space
enrollment call and 200 to everything else. -/
def oracle205 : Oracle := fun c =>
  match c with
  | Call.putSpaceUser _ _ _ => ⟨205, "t", "i", "k", "x/y"⟩
  | _ => ⟨200, "t", "i", "k", "x/y"⟩

/-- An environment answering 500 to every call. -/
def oracle500 : Oracle := fun _ => ⟨500, "t", "i", "k", "x/y"⟩

/-- Counterexample to claim C3 as stated: under `oracle205` the space
enrollment call of the one-user run returns 205 — a non-accepted status,
hence a failed validation in the claim's sense — yet a MAP-stage call and
the PERSIST-stage file write still execute, because `raise_for_status`
does not raise on 205. -/
theorem pipeline_205_counterexample :
    ((oracle205 (spaceUserCallOf smallCfg smallCfg.space_id (0, "u00000", "i", "k"))).status_code
        ∉ [200, 201, 202, 204]) ∧
    (Event.call (spaceUserCallOf smallCfg smallCfg.space_id (0, "u00000", "i", "k"))
        ∈ (runPipeline smallCfg oracle205 []).1) ∧
    ((runPipeline smallCfg oracle205 []).1.any (fun ev =>
        match ev with
        | Event.call c => stageOfCall c == 4
        | Event.fileWrite _ _ => true
        | _ => false) = true) ∧
    (runPipeline smallCfg oracle205 []).2 = Except.ok () := by
  refine ⟨by decide, by decide, by decide, by decide⟩

/-- Claim C3 (amended): if any remote call fails with a status on which
`raise_for_status` raises (400-599) — or the Location unpacking fails —
the raised exception terminates the run inside its stage: every event of
the emitted trace belongs to a stage at or before the failing one, so no
call of any later stage (and no file write) is ever executed. Non-accepted
statuses outside 400-599 are logged but do not terminate the run. -/
theorem runPipeline_failure_stops (cfg : Config) (o : Oracle) (prev : List Char)
    (e : PipelineError) (h : (runPipeline cfg o prev).2 = Except.error e) :
    (∀ ev ∈ (runPipeline cfg o prev).1, ∀ s, eventStage ev = some s
        → s ≤ stageNat (errStage e)) ∧
    (∀ st n, e = PipelineError.httpStatus st n → 400 ≤ n ∧ n < 600) := by
  simp only [runPipeline] at h ⊢
  cases h1 : (addUsersToOnezone cfg o
      (generateUserLogins cfg.low_uid_range cfg.high_uid_range cfg.user_login_pfx)).2 with
  | error e1 =>
    simp only [h1] at h ⊢
    injection h with he
    subst he
    have herr := addUsersToOnezone_error cfg o _ e1 h1
    refine ⟨?_, herr.2⟩
    intro ev hv s hs
    have hse := addUsersToOnezone_events cfg o _ ev hv s hs
    rw [hse, herr.1]
    decide
  | ok u1 =>
    simp only [h1] at h ⊢
    cases h2 : (getUserIdsAndTokens cfg o
        (generateUserLogins cfg.low_uid_range cfg.high_uid_range cfg.user_login_pfx)).2 with
    | error e2 =>
      simp only [h2] at h ⊢
      injection h with he
      subst he
      have herr := getUserIdsAndTokens_error cfg o _ e2 h2
      refine ⟨?_, herr.2⟩
      intro ev hv s hs
      simp only [List.mem_append, or_assoc] at hv
      rcases hv with hv | hv
      · have hse := addUsersToOnezone_events cfg o _ ev hv s hs
        rw [hse, herr.1]
        decide
      · have hse := getUserIdsAndTokens_events cfg o _ ev hv s hs
        rw [hse, herr.1]
        decide
    | ok users =>
      simp only [h2] at h ⊢
      cases h3 : (addUsersToSpace cfg o cfg.space_id users).2 with
      | error e3 =>
        simp only [h3] at h ⊢
        injection h with he
        subst he
        have herr := addUsersToSpace_error cfg o cfg.space_id _ e3 h3
        refine ⟨?_, herr.2⟩
        intro ev hv s hs
        simp only [List.mem_append, or_assoc] at hv
        rcases hv with hv | hv | hv
        · have hse := addUsersToOnezone_events cfg o _ ev hv s hs
          rw [hse, herr.1]
          decide
        · have hse := getUserIdsAndTokens_events cfg o _ ev hv s hs
          rw [hse, herr.1]
          decide
        · have hse := addUsersToSpace_events cfg o cfg.space_id _ ev hv s hs
          rw [hse, herr.1]
          decide
      | ok u3 =>
        simp only [h3] at h ⊢
        cases h4 : (addUserMappingsToLUMA cfg o cfg.storage_name users cfg.space_id
            cfg.default_space_gid).2 with
        | error e4 =>
          simp only [h4] at h ⊢
          injection h with he
          subst he
          have herr := addUserMappingsToLUMA_error cfg o cfg.storage_name users cfg.space_id
            cfg.default_space_gid e4 h4
          refine ⟨?_, herr.2⟩
          intro ev hv s hs
          simp only [List.mem_append, or_assoc] at hv
          rcases hv with hv | hv | hv | hv
          · have hse := addUsersToOnezone_events cfg o _ ev hv s hs
            rw [hse, herr.1]
            decide
          · have hse := getUserIdsAndTokens_events cfg o _ ev hv s hs
            rw [hse, herr.1]
            decide
          · have hse := addUsersToSpace_events cfg o cfg.space_id _ ev hv s hs
            rw [hse, herr.1]
            decide
          · have hse := addUserMappingsToLUMA_events cfg o cfg.storage_name users cfg.space_id
              cfg.default_space_gid ev hv s hs
            rw [hse, herr.1]
            decide
        | ok u4 =>
          simp only [h4, writeUserAccounts] at h
          simp at h

/-- Witness for the amended C3: under the all-500 environment the run
fails in the PROVISION stage and its whole trace sits at stage one. -/
theorem runPipeline_failure_stops_witness :
    (∀ ev ∈ (runPipeline smallCfg oracle500 []).1, ∀ s, eventStage ev = some s
        → s ≤ stageNat (errStage (PipelineError.httpStatus Stage.provision 500))) ∧
    (∀ st n, PipelineError.httpStatus Stage.provision 500 = PipelineError.httpStatus st n
        → 400 ≤ n ∧ n < 600) :=
  runPipeline_failure_stops smallCfg oracle500 []
    (PipelineError.httpStatus Stage.provision 500) (by decide)

/-- An environment answering 200 to every call, Location `x/y`. -/
def oracle200 : Oracle := fun _ => ⟨200, "t", "i", "k", "x/y"⟩

/-- Claim C6: whenever the Credential Harvester returns successfully, it
returns exactly one tuple per input record, in input order, whose uid and
login are those of the source Login Record unchanged, and whose identity
and token are the fields of the corresponding service responses. -/
theorem getUserIdsAndTokens_ok (cfg : Config) (o : Oracle) :
    ∀ logins res, (getUserIdsAndTokens cfg o logins).2 = Except.ok res →
      res = logins.map (fun u =>
        (u.1, u.2, (o (getUserCallOf cfg u.2)).json_userId,
          (o (tokenCallOf cfg u.2)).json_token)) := by
  intro logins
  induction logins with
  | nil =>
    intro res h
    have h2 : Except.ok ([] : List PUser) = Except.ok res := h
    injection h2 with h1
    rw [← h1]
    rfl
  | cons user rest ih =>
    intro res h
    rw [getUserIdsAndTokens] at h
    cases hc : checkExc (o (getUserCallOf cfg user.2)) with
    | error n =>
      simp only [hc] at h
      simp at h
    | ok u =>
      simp only [hc] at h
      cases hc2 : checkExc (o (tokenCallOf cfg user.2)) with
      | error n =>
        simp only [hc2] at h
        simp at h
      | ok u2 =>
        simp only [hc2] at h
        cases hr : (getUserIdsAndTokens cfg o rest).2 with
        | error e2 =>
          simp only [hr, Except.map] at h
          simp at h
        | ok xs =>
          simp only [hr, Except.map] at h
          injection h with h1
          rw [← h1, List.map_cons, ih xs hr]

/-- Witness for C6 under the all-200 environment. -/
theorem getUserIdsAndTokens_ok_witness :
    [((0 : Int), "u00000", "i", "k")]
      = ([((0 : Int), "u00000")]).map (fun u =>
          (u.1, u.2, (oracle200 (getUserCallOf smallCfg u.2)).json_userId,
            (oracle200 (tokenCallOf smallCfg u.2)).json_token)) :=
  getUserIdsAndTokens_ok smallCfg oracle200 [((0 : Int), "u00000")]
    [((0 : Int), "u00000", "i", "k")] (by decide)

theorem checkExc_ok_of_not_error (res : Response)
    (h : ¬(400 ≤ res.status_code ∧ res.status_code < 600)) :
    checkExc res = Except.ok () := by
  simp [checkExc, raiseForStatus, h]

theorem generateUserLogins_empty (low high : Int) (pfx : String) (hle : high ≤ low) :
    generateUserLogins low high pfx = [] := by
  rw [generateUserLogins_closed_form]
  have h0 : (high - low).toNat = 0 := by omega
  rw [h0]
  rfl

/-- Claim C7: for `L ≥ H` (including `L = H`) the Login Generator returns
the empty sequence rather than raising, and consequently with an empty
range every per-user provisioning loop performs zero remote calls: the
run's only remote call is the once-per-run default-group call, and when
that call does not carry an error status (400-599) the run succeeds and
the output file is created holding zero lines. -/
theorem emptyRange_spec (low high : Int) (pfx : String) (hle : high ≤ low)
    (cfg : Config) (o : Oracle) (prev : List Char)
    (hcfg : cfg.high_uid_range ≤ cfg.low_uid_range)
    (hok : ¬(400 ≤ (o (defaultGroupCallOf cfg cfg.space_id cfg.default_space_gid
          cfg.storage_name)).status_code ∧
        (o (defaultGroupCallOf cfg cfg.space_id cfg.default_space_gid
          cfg.storage_name)).status_code < 600)) :
    generateUserLogins low high pfx = [] ∧
    runPipeline cfg o prev
      = (Event.call (defaultGroupCallOf cfg cfg.space_id cfg.default_space_gid cfg.storage_name)
          :: checkLog (o (defaultGroupCallOf cfg cfg.space_id cfg.default_space_gid
              cfg.storage_name))
          ++ [Event.fileWrite (cfg.user_login_pfx ++ "_accounts.csv") []],
         Except.ok ()) ∧
    fileLines [] = [] := by
  refine ⟨generateUserLogins_empty low high pfx hle, ?_, rfl⟩
  have hg : generateUserLogins cfg.low_uid_range cfg.high_uid_range cfg.user_login_pfx = [] :=
    generateUserLogins_empty _ _ _ hcfg
  have hchk : checkExc (o (defaultGroupCallOf cfg cfg.space_id cfg.default_space_gid
      cfg.storage_name)) = Except.ok () := checkExc_ok_of_not_error _ hok
  simp only [runPipeline, hg, addUsersToOnezone, getUserIdsAndTokens, addUsersToSpace,
    addUserMappingsToLUMA, hchk, lumaUsersLoop, writeUserAccounts, writeLoop, pyOpenWPlus,
    List.foldl_nil, List.nil_append, List.append_nil]

/-- A three-unit empty-range configuration for concrete runs. -/
def emptyCfg : Config :=
  ⟨ "z", "l", "a", "p", "a", "p", "pw", "S", 7, "st", "posix", 3, 3, "u" ⟩

/-- Witness for C7: an empty-range run under the all-200 environment. -/
theorem emptyRange_spec_witness :
    generateUserLogins 5 5 "q" = [] ∧
    runPipeline emptyCfg oracle200 []
      = (Event.call (defaultGroupCallOf emptyCfg emptyCfg.space_id emptyCfg.default_space_gid
            emptyCfg.storage_name)
          :: checkLog (oracle200 (defaultGroupCallOf emptyCfg emptyCfg.space_id
              emptyCfg.default_space_gid emptyCfg.storage_name))
          ++ [Event.fileWrite (emptyCfg.user_login_pfx ++ "_accounts.csv") []],
         Except.ok ()) ∧
    fileLines [] = [] :=
  emptyRange_spec 5 5 "q" (by decide) emptyCfg oracle200 [] (by decide) (by decide)

/-! ### Lemmas about the output lines -/

theorem pyIntData_chars (i : Int) :
    ∀ c ∈ pyIntData i, c = '-' ∨ ∃ d, d < 10 ∧ c = Nat.digitChar d := by
  intro c hc
  unfold pyIntData at hc
  split at hc
  · rcases List.mem_cons.mp hc with h1 | h1
    · left
      exact h1
    · right
      exact pyNatData_all_digits _ c h1
  · right
    exact pyNatData_all_digits _ c hc

theorem comma_not_mem_pyIntData (i : Int) : ',' ∉ pyIntData i := by
  intro hc
  rcases pyIntData_chars i ',' hc with h | ⟨d, hd, hdc⟩
  · exact absurd h (by decide)
  · exact digitChar_ne_comma d hd hdc.symm

theorem newline_not_mem_pyIntData (i : Int) : '\n' ∉ pyIntData i := by
  intro hc
  rcases pyIntData_chars i '\n' hc with h | ⟨d, hd, hdc⟩
  · exact absurd h (by decide)
  · exact digitChar_ne_newline d hd hdc.symm

theorem userLineData_eq (u : PUser) :
    userLineData u
      = pyIntData u.1 ++ ',' :: (u.2.1.data ++ ',' :: (u.2.2.1.data ++ ',' :: u.2.2.2.data)) := by
  simp [userLineData, pyJoin, List.append_assoc]

theorem splitChar_userLineData (u : PUser)
    (h1 : ',' ∉ u.2.1.data) (h2 : ',' ∉ u.2.2.1.data) (h3 : ',' ∉ u.2.2.2.data) :
    splitChar ',' (userLineData u)
      = [pyIntData u.1, u.2.1.data, u.2.2.1.data, u.2.2.2.data] := by
  rw [userLineData_eq]
  rw [splitChar_append ',' _ _ (comma_not_mem_pyIntData u.1)]
  rw [splitChar_append ',' _ _ h1]
  rw [splitChar_append ',' _ _ h2]
  rw [splitChar_not_mem ',' _ h3]

theorem newline_not_mem_userLineData (u : PUser)
    (h1 : '\n' ∉ u.2.1.data) (h2 : '\n' ∉ u.2.2.1.data) (h3 : '\n' ∉ u.2.2.2.data) :
    '\n' ∉ userLineData u := by
  rw [userLineData_eq]
  intro hc
  simp only [List.mem_append, List.mem_cons, or_assoc] at hc
  rcases hc with hc | hc | hc | hc | hc | hc | hc
  · exact newline_not_mem_pyIntData u.1 hc
  · exact absurd hc (by decide)
  · exact h1 hc
  · exact absurd hc (by decide)
  · exact h2 hc
  · exact absurd hc (by decide)
  · exact h3 hc

theorem writeLoop_eq (users : List PUser) : ∀ f0,
    writeLoop users f0 = f0 ++ (users.map (fun u => userLineData u ++ ['\n'])).flatten := by
  induction users with
  | nil =>
    intro f0
    simp [writeLoop]
  | cons u rest ih =>
    intro f0
    show writeLoop rest (f0 ++ userLineData u ++ ['\n']) = _
    rw [ih]
    simp [List.append_assoc]

theorem fileLines_flatten (lines : List (List Char)) (h : ∀ l ∈ lines, '\n' ∉ l) :
    fileLines ((lines.map (fun l => l ++ ['\n'])).flatten) = lines := by
  induction lines with
  | nil => rfl
  | cons l rest ih =>
    simp only [List.map_cons, List.flatten_cons]
    have hstep : (l ++ ['\n']) ++ ((rest.map (fun l2 => l2 ++ ['\n'])).flatten)
        = l ++ '\n' :: ((rest.map (fun l2 => l2 ++ ['\n'])).flatten) := by
      simp
    rw [hstep, fileLines_line_append _ _ (h l (by simp))]
    rw [ih (fun x hx => h x (by simp [hx]))]

/-- Claim C4: for any list of Provisioned Users whose string fields hold
no commas and no newlines, writing them and reading the output file back
yields exactly one line per user, in order, and each line splits on commas
into exactly the four fields of the original tuple, as strings. -/
theorem writeUserAccounts_roundtrip (users : List PUser)
    (h : ∀ u ∈ users, (',' ∉ u.2.1.data ∧ '\n' ∉ u.2.1.data)
        ∧ (',' ∉ u.2.2.1.data ∧ '\n' ∉ u.2.2.1.data)
        ∧ (',' ∉ u.2.2.2.data ∧ '\n' ∉ u.2.2.2.data)) :
    (∀ prev, fileLines (writeLoop users (pyOpenWPlus prev)) = users.map userLineData) ∧
    (fileLines (writeLoop users (pyOpenWPlus []))).length = users.length ∧
    (∀ u ∈ users, splitChar ',' (userLineData u)
        = [pyIntData u.1, u.2.1.data, u.2.2.1.data, u.2.2.2.data]) := by
  have hfl : ∀ prev, fileLines (writeLoop users (pyOpenWPlus prev)) = users.map userLineData := by
    intro prev
    rw [show pyOpenWPlus prev = [] from rfl, writeLoop_eq users [], List.nil_append]
    rw [show users.map (fun u => userLineData u ++ ['\n'])
          = (users.map userLineData).map (fun l => l ++ ['\n']) by rw [List.map_map]; rfl]
    apply fileLines_flatten
    intro l hl
    rcases List.mem_map.mp hl with ⟨u, hu, huu⟩
    rw [← huu]
    exact newline_not_mem_userLineData u (h u hu).1.2 (h u hu).2.1.2 (h u hu).2.2.2
  refine ⟨hfl, by rw [hfl []]; simp, ?_⟩
  intro u hu
  exact splitChar_userLineData u (h u hu).1.1 (h u hu).2.1.1 (h u hu).2.2.1

/-- Witness for C4 on a one-user list. -/
theorem writeUserAccounts_roundtrip_witness :
    (fileLines (writeLoop [((7 : Int), "a", "b", "c")] (pyOpenWPlus []))).length
      = [((7 : Int), "a", "b", "c")].length :=
  (writeUserAccounts_roundtrip [((7 : Int), "a", "b", "c")] (by decide)).2.1

/-- Claim C5: `writeUserAccounts` opens `<prefix>_accounts.csv` in
create/truncate mode rather than append: the run performs exactly one
write event, to that filename, and its content — one comma-joined,
newline-terminated line per user in pipeline order, no header row —
is the same whatever content the file held before. -/
theorem writeUserAccounts_truncates (pfx : String) (users : List PUser) :
    (∀ prev prev2, writeUserAccounts pfx users prev = writeUserAccounts pfx users prev2) ∧
    (∀ prev, writeUserAccounts pfx users prev
      = ([Event.fileWrite (pfx ++ "_accounts.csv")
            ((users.map (fun u => userLineData u ++ ['\n'])).flatten)], Except.ok ())) := by
  have h2 : ∀ prev, writeUserAccounts pfx users prev
      = ([Event.fileWrite (pfx ++ "_accounts.csv")
            ((users.map (fun u => userLineData u ++ ['\n'])).flatten)], Except.ok ()) := by
    intro prev
    unfold writeUserAccounts
    rw [show pyOpenWPlus prev = [] from rfl, writeLoop_eq users [], List.nil_append]
  exact ⟨fun p q => (h2 p).trans (h2 q).symm, h2⟩

/-! ### The Storage Mapping Registrar claim -/

/-- Projection keeping only PUT-credentials calls. -/
def credProj : Event → Option Call :=
  fun ev =>
    match ev with
    | Event.call (Call.putLumaCredentials url sn st uid gid) =>
        some (Call.putLumaCredentials url sn st uid gid)
    | _ => none

/-- The PUT-credentials calls occurring in a trace, in order. -/
def lumaCredCalls (t : List Event) : List Call := t.filterMap credProj

theorem lumaCredCalls_checkLog (res : Response) : lumaCredCalls (checkLog res) = [] := by
  unfold checkLog lumaCredCalls
  split
  · rfl
  · rfl

theorem filterMap_credProj_checkLog (res : Response) :
    List.filterMap credProj (checkLog res) = [] := lumaCredCalls_checkLog res

theorem credProj_logInfo (m : String) : credProj (Event.logInfo m) = none := rfl

theorem credProj_register (cfg : Config) (u : PUser) :
    credProj (Event.call (registerCallOf cfg u)) = none := rfl

theorem credProj_defaultGroup (cfg : Config) (space_id : String) (gid : Int) (sn : String) :
    credProj (Event.call (defaultGroupCallOf cfg space_id gid sn)) = none := rfl

theorem credProj_creds (cfg : Config) (o : Oracle) (sn : String) (u : PUser) :
    credProj (Event.call (credsCallOf cfg o sn u)) = some (credsCallOf cfg o sn u) := rfl

theorem lumaIdOf_of_extract (cfg : Config) (o : Oracle) (u : PUser) (v : String)
    (h : extractLumaId (o (registerCallOf cfg u)).location = Except.ok v) :
    lumaIdOf cfg o u = v := by
  unfold lumaIdOf
  rw [h]

theorem lumaUsersLoop_ok (cfg : Config) (o : Oracle) (storage_name : String) :
    ∀ us, (lumaUsersLoop cfg o storage_name us).2 = Except.ok () →
      lumaCredCalls (lumaUsersLoop cfg o storage_name us).1
        = us.map (fun u => credsCallOf cfg o storage_name u) ∧
      ∀ u ∈ us, extractLumaId (o (registerCallOf cfg u)).location = Except.ok (lumaIdOf cfg o u)
        ∧ Event.call (registerCallOf cfg u) ∈ (lumaUsersLoop cfg o storage_name us).1 := by
  intro us
  induction us with
  | nil =>
    intro _
    exact ⟨rfl, by intro u hu; simp at hu⟩
  | cons user rest ih =>
    intro h
    rw [lumaUsersLoop] at h ⊢
    cases hc : checkExc (o (registerCallOf cfg user)) with
    | error n =>
      simp only [hc] at h
      simp at h
    | ok u1 =>
      simp only [hc] at h ⊢
      cases hx : extractLumaId (o (registerCallOf cfg user)).location with
      | error uerr =>
        simp only [hx] at h
        simp at h
      | ok lid =>
        simp only [hx] at h ⊢
        cases hc2 : checkExc (o (credsCallOf cfg o storage_name user)) with
        | error n =>
          simp only [hc2] at h
          simp at h
        | ok u2 =>
          simp only [hc2] at h ⊢
          have hrec := ih h
          constructor
          · show lumaCredCalls
              ((Event.logInfo ("Adding user " ++ user.2.1 ++ " credentials to LUMA")
                :: Event.call (registerCallOf cfg user)
                :: checkLog (o (registerCallOf cfg user)))
               ++ Event.call (credsCallOf cfg o storage_name user)
                :: checkLog (o (credsCallOf cfg o storage_name user))
               ++ (lumaUsersLoop cfg o storage_name rest).1) = _
            unfold lumaCredCalls
            rw [List.filterMap_append, List.filterMap_append]
            rw [List.filterMap_cons_none (credProj_logInfo _)]
            rw [List.filterMap_cons_none (credProj_register cfg user)]
            rw [filterMap_credProj_checkLog]
            rw [List.filterMap_cons_some (credProj_creds cfg o storage_name user)]
            rw [filterMap_credProj_checkLog]
            rw [List.map_cons]
            show [] ++ ([credsCallOf cfg o storage_name user] ++ lumaCredCalls _) = _
            rw [List.nil_append, List.singleton_append]
            rw [hrec.1]
          · intro u hu
            rcases List.mem_cons.mp hu with h1 | h1
            · subst h1
              refine ⟨by rw [lumaIdOf_of_extract cfg o u lid hx]; exact hx, ?_⟩
              simp
            · have hr := hrec.2 u h1
              refine ⟨hr.1, ?_⟩
              simp only [List.cons_append, List.mem_cons, List.mem_append, or_assoc]
              right
              right
              right
              right
              right
              exact hr.2

/-- Claim C8: the once-per-run default-group call is the first event of
the Storage Mapping Registrar's trace, hence precedes every per-user
registration; and on success the PUT-credentials calls of the trace are
exactly one per user, in order, each targeting the LUMA-local id obtained
as the final path segment of the Location header of that user's
registration response, with uid and gid both equal to the user tuple's
numeric id. -/
theorem addUserMappingsToLUMA_spec (cfg : Config) (o : Oracle) (storage_name : String)
    (users : List PUser) (space_id : String) (default_gid : Int) :
    ((addUserMappingsToLUMA cfg o storage_name users space_id default_gid).1.head?
        = some (Event.call (defaultGroupCallOf cfg space_id default_gid storage_name))) ∧
    ((addUserMappingsToLUMA cfg o storage_name users space_id default_gid).2 = Except.ok () →
      lumaCredCalls (addUserMappingsToLUMA cfg o storage_name users space_id default_gid).1
        = users.map (fun u => credsCallOf cfg o storage_name u) ∧
      (∀ u ∈ users,
        extractLumaId (o (registerCallOf cfg u)).location = Except.ok (lumaIdOf cfg o u) ∧
        credsCallOf cfg o storage_name u
          = Call.putLumaCredentials
              (lumaUrl cfg ++ "/admin/users/" ++ lumaIdOf cfg o u ++ "/credentials")
              storage_name cfg.storage_type u.1 u.1 ∧
        Event.call (registerCallOf cfg u)
          ∈ (addUserMappingsToLUMA cfg o storage_name users space_id default_gid).1)) := by
  rw [addUserMappingsToLUMA]
  cases hc : checkExc (o (defaultGroupCallOf cfg space_id default_gid storage_name)) with
  | error n =>
    simp only [hc]
    refine ⟨rfl, ?_⟩
    intro hok
    simp at hok
  | ok u0 =>
    simp only [hc]
    constructor
    · rw [List.cons_append]
      rfl
    · intro hok
      have hloop := lumaUsersLoop_ok cfg o storage_name users hok
      constructor
      · show lumaCredCalls
            (Event.call (defaultGroupCallOf cfg space_id default_gid storage_name)
              :: checkLog (o (defaultGroupCallOf cfg space_id default_gid storage_name))
              ++ (lumaUsersLoop cfg o storage_name users).1) = _
        unfold lumaCredCalls
        rw [List.cons_append, List.filterMap_cons_none (credProj_defaultGroup _ _ _ _)]
        rw [List.filterMap_append, filterMap_credProj_checkLog, List.nil_append]
        exact hloop.1
      · intro u hu
        refine ⟨(hloop.2 u hu).1, rfl, ?_⟩
        simp only [List.cons_append, List.mem_cons, List.mem_append, or_assoc]
        right
        right
        exact (hloop.2 u hu).2

/-- Witness for C8: a successful one-user registrar run under the all-200
environment, Location `x/y`. -/
theorem addUserMappingsToLUMA_spec_witness :
    ((addUserMappingsToLUMA smallCfg oracle200 "st" [((0 : Int), "u00000", "i", "k")] "S" 7).1.head?
        = some (Event.call (defaultGroupCallOf smallCfg "S" 7 "st"))) ∧
    lumaCredCalls
        (addUserMappingsToLUMA smallCfg oracle200 "st" [((0 : Int), "u00000", "i", "k")] "S" 7).1
      = ([((0 : Int), "u00000", "i", "k")]).map
          (fun u => credsCallOf smallCfg oracle200 "st" u) :=
  ⟨(addUserMappingsToLUMA_spec smallCfg oracle200 "st" [((0 : Int), "u00000", "i", "k")] "S" 7).1,
   ((addUserMappingsToLUMA_spec smallCfg oracle200 "st"
      [((0 : Int), "u00000", "i", "k")] "S" 7).2 (by decide)).1⟩
